import Mathlib

/-! # Verification of the sqld dynamic-SQL combinator library

Shallow embedding of the Go sources: the current module
(`operators.sqld.go`, `conditionals.sqld.go`, `postgres.sqld.go`,
`extensions.sqld.go`) and the legacy module (`legacy/operators.sqld.go`,
`legacy/conditionals.sqld.go`, the legacy root file with `New` and the
error values).  Go strings are modelled as lists of characters; an
operator (`SqldFn`, a pure nullary closure) is modelled by the result
triple it returns when invoked, since every operator in the library is a
pure closure over immutable construction-time arguments. -/

/-- Go strings, modelled as lists of characters. -/
abbrev GoStr := List Char

/-- `driver.Value` is Go's untyped `any`.  Besides scalar bind values it can
hold a whole `[]driver.Value` (which happens when `append(vals, fnVals)` is
used without `...`); the `slice` constructor represents that.  A non-nil Go
pointer passed as a bind value is modelled by the value it references. -/
inductive Value where
  | vint  : Int → Value
  | vnat  : Nat → Value
  | vstr  : GoStr → Value
  | slice : List Value → Value

/-- The library's sentinel `error` values, plus `fmt.Errorf("...: %w", e)`
wrapping (`wrap`; the context argument is the format prefix) and
`errors.Join`: `join1` models `errors.Join` applied to exactly one non-nil
error, `joinErr` to two non-nil errors. -/
inductive GoErr where
  | errNoColumns : GoErr
  | errNilVal : GoErr
  | errNilColumnExpr : GoErr
  | errArgNotSlice : GoErr
  | errEmptySlice : GoErr
  | errNoOps : GoErr
  | wrap : GoStr → GoErr → GoErr
  | join1 : GoErr → GoErr
  | joinErr : GoErr → GoErr → GoErr
deriving DecidableEq

/-- `errors.Join(a, b)` as used in the accumulation loops: nil arguments are
discarded; if any argument is non-nil a fresh join node is allocated. -/
def errorsJoin : Option GoErr → Option GoErr → Option GoErr
  | none, none => none
  | none, some e => some (.join1 e)
  | some e, none => some (.join1 e)
  | some a, some b => some (.joinErr a b)

/-- The underlying causes of an error, in order: what `errors.Is` can reach
through `Unwrap`.  Wrapping with context keeps the causes. -/
def errAtoms : GoErr → List GoErr
  | .wrap _ e => errAtoms e
  | .join1 e => errAtoms e
  | .joinErr a b => errAtoms a ++ errAtoms b
  | e => [e]

/-- Causes of a possibly-nil error. -/
def errAtomsOpt : Option GoErr → List GoErr
  | none => []
  | some e => errAtoms e

/-- The result of invoking an operator: rendered fragment, collected bind
parameters, and an error (or nil). -/
structure RenderRes where
  frag : GoStr
  vals : List Value
  err  : Option GoErr

/-- `SqldFn`: operators are pure nullary closures, modelled by their result. -/
abbrev SqldFn := RenderRes

/-- A Go slice of bind values; `none` is the nil slice (distinct from an
empty non-nil slice). -/
abbrev GoSlice := Option (List Value)

/-- Ranging over (or taking `len` of) a Go slice: nil behaves as empty. -/
def sliceElems : GoSlice → List Value
  | none => []
  | some l => l

/-- Go `len` on a slice. -/
def gLen (s : GoSlice) : Nat := (sliceElems s).length

/-- `mapSlice` (extensions.sqld.go): copies a generic slice element-wise into
a fresh `[]driver.Value`. -/
def mapSlice (vals : GoSlice) : List Value :=
  (sliceElems vals).foldl (fun acc v => acc ++ [v]) []

/-- `strings.ToLower`. -/
def toLowerStr (s : GoStr) : GoStr := s.map Char.toLower

/-- `strings.Repeat`. -/
def stringsRepeat (s : GoStr) (n : Nat) : GoStr := (List.replicate n s).flatten

/-- `Just` (operators.sqld.go): returns the provided string, no parameters,
no error. -/
def Just (s : GoStr) : SqldFn := ⟨s, [], none⟩

/-- `Eq` (operators.sqld.go, current module): compares a column with the
value behind a Go pointer (`Option`); a nil pointer is an `ErrNilVal`. -/
def EqOp (columnExpr : GoStr) (val : Option Value) : SqldFn :=
  match val with
  | none => ⟨[], [], some (.wrap (("eq (").toList ++ columnExpr ++ ("): ").toList) .errNilVal)⟩
  | some v => ⟨columnExpr ++ (" = ?").toList, [v], none⟩

/-- `In` (operators.sqld.go, current module): one placeholder per element;
an empty slice renders nothing with no error. -/
def InOp (columnExpr : GoStr) (vals : GoSlice) : SqldFn :=
  if gLen vals = 0 then ⟨[], [], none⟩
  else ⟨columnExpr ++ (" IN (").toList ++ (stringsRepeat ((", ?").toList) (gLen vals)).drop 1 ++ [')'],
        mapSlice vals, none⟩

/-- `In` (second generation in operators.sqld.go): identical rendering but an
empty slice is an `ErrEmptySlice`. -/
def InOpV2 (columnExpr : GoStr) (vals : GoSlice) : SqldFn :=
  if gLen vals = 0 then
    ⟨[], [], some (.wrap (("in (").toList ++ columnExpr ++ ("): ").toList) .errEmptySlice)⟩
  else ⟨columnExpr ++ (" IN (").toList ++ (stringsRepeat ((", ?").toList) (gLen vals)).drop 1 ++ [')'],
        mapSlice vals, none⟩

/-- Loop of `boolCond` (operators.sqld.go, current module).  Arguments mirror
the Go locals `sb`, `vals`, `errs`, `atLeastOne`.  Note `append(vals, fnVals)`
without `...`: the child's whole parameter slice becomes one element. -/
def boolCondLoop (cond : GoStr) (sb : GoStr) (vals : List Value) (errs : Option GoErr)
    (atLeastOne : Bool) : List SqldFn → GoStr × List Value × Option GoErr
  | [] => (sb, vals, errs)
  | fn :: rest =>
    let errs2 := errorsJoin errs fn.err
    if errs2.isSome || fn.frag.isEmpty then
      boolCondLoop cond sb vals errs2 atLeastOne rest
    else
      boolCondLoop cond (sb ++ (if atLeastOne then cond ++ [' '] else []) ++ fn.frag ++ ['\n'])
        (vals ++ [Value.slice fn.vals]) errs2 true rest

/-- `boolCond` (operators.sqld.go, current module). -/
def boolCond (cond : GoStr) (ops : List SqldFn) : SqldFn :=
  if ops.isEmpty then ⟨[], [], some (.wrap (toLowerStr cond ++ (": ").toList) .errNoOps)⟩
  else
    match (boolCondLoop cond [] [] none false ops).2.2 with
    | some e => ⟨[], [], some (.wrap (cond ++ (": ").toList) e)⟩
    | none => ⟨(boolCondLoop cond [] [] none false ops).1,
        (boolCondLoop cond [] [] none false ops).2.1, none⟩

/-- `And` (current module). -/
def AndFn (ops : List SqldFn) : SqldFn := boolCond (("AND").toList) ops

/-- `Or` (current module). -/
def OrFn (ops : List SqldFn) : SqldFn := boolCond (("OR").toList) ops

/-- Loop of the operator-taking `Select` (operators.sqld.go, current module):
returns immediately on the first child error. -/
def selectLoop (columns : GoStr) (vals : List Value) :
    List SqldFn → GoStr × List Value × Option GoErr
  | [] => (columns, vals, none)
  | op :: rest =>
    match op.err with
    | some e => ([], [], some (.wrap (("select: ").toList) e))
    | none => selectLoop (columns ++ (",\n\t").toList ++ op.frag) (vals ++ [Value.slice op.vals]) rest

/-- `Select` over operators (operators.sqld.go, current module). -/
def Select (ops : List SqldFn) : SqldFn :=
  if ops.isEmpty then ⟨[], [], some (.wrap (("select: ").toList) .errNoOps)⟩
  else
    match (selectLoop [] [] ops).2.2 with
    | some e => ⟨[], [], some e⟩
    | none => ⟨("SELECT\n\t").toList ++ (selectLoop [] [] ops).1,
        (selectLoop [] [] ops).2.1, none⟩

/-- Loop shared by `Where` and `Having` (their bodies are textually identical
in the source): tab-indent every non-empty child fragment. -/
def whereLoop (sb : GoStr) (vals : List Value) (errs : Option GoErr) :
    List SqldFn → GoStr × List Value × Option GoErr
  | [] => (sb, vals, errs)
  | fn :: rest =>
    let errs2 := errorsJoin errs fn.err
    if errs2.isSome || fn.frag.isEmpty then whereLoop sb vals errs2 rest
    else whereLoop (sb ++ ['\t'] ++ fn.frag ++ ['\n']) (vals ++ [Value.slice fn.vals]) errs2 rest

/-- `Where` (operators.sqld.go, current module). -/
def Where (ops : List SqldFn) : SqldFn :=
  if ops.isEmpty then ⟨[], [], some (.wrap (("where: ").toList) .errNoOps)⟩
  else
    match (whereLoop [] [] none ops).2.2 with
    | some e => ⟨[], [], some (.wrap (("where:\n\t\t").toList) e)⟩
    | none =>
      if (whereLoop [] [] none ops).1.isEmpty then ⟨[], [], none⟩
      else ⟨("WHERE\n").toList ++ (whereLoop [] [] none ops).1,
        (whereLoop [] [] none ops).2.1, none⟩

/-- `Having` (operators.sqld.go, current module). -/
def Having (ops : List SqldFn) : SqldFn :=
  if ops.isEmpty then ⟨[], [], some (.wrap (("having: ").toList) .errNoOps)⟩
  else
    match (whereLoop [] [] none ops).2.2 with
    | some e => ⟨[], [], some (.wrap (("having:\n\t\t").toList) e)⟩
    | none =>
      if (whereLoop [] [] none ops).1.isEmpty then ⟨[], [], none⟩
      else ⟨("HAVING\n").toList ++ (whereLoop [] [] none ops).1,
        (whereLoop [] [] none ops).2.1, none⟩

/-- Loop of `OrderBy` (operators.sqld.go, current module); `n` is `len(ops)`
and `i` the running index, a comma is written after every rendered item whose
index is not the last index. -/
def orderByLoop (n : Nat) (sb : GoStr) (vals : List Value) (errs : Option GoErr) (i : Nat) :
    List SqldFn → GoStr × List Value × Option GoErr
  | [] => (sb, vals, errs)
  | fn :: rest =>
    let errs2 := errorsJoin errs fn.err
    if errs2.isSome || fn.frag.isEmpty then orderByLoop n sb vals errs2 (i + 1) rest
    else
      orderByLoop n (sb ++ fn.frag ++ (if i = n - 1 then [] else [',']) ++ ['\n'])
        (vals ++ [Value.slice fn.vals]) errs2 (i + 1) rest

/-- `OrderBy` (operators.sqld.go, current module). -/
def OrderBy (ops : List SqldFn) : SqldFn :=
  if ops.isEmpty then ⟨[], [], some (.wrap (("orderBy: ").toList) .errNoOps)⟩
  else
    match (orderByLoop ops.length [] [] none 0 ops).2.2 with
    | some e => ⟨[], [], some (.wrap (("orderBy:\n\t\t").toList) e)⟩
    | none =>
      if (orderByLoop ops.length [] [] none 0 ops).1.isEmpty then ⟨[], [], none⟩
      else ⟨("ORDER BY\n").toList ++ (orderByLoop ops.length [] [] none 0 ops).1,
        (orderByLoop ops.length [] [] none 0 ops).2.1, none⟩

/-- `NoOp` (conditionals.sqld.go): the absence sentinel. -/
def NoOp : SqldFn := ⟨[], [], none⟩

/-- `IfElse` (conditionals.sqld.go): the predicate closure is invoked once at
selection time; one of the two operator values is returned unevaluated. -/
def IfElse (pred : Unit → Bool) (trueFn falseFn : SqldFn) : SqldFn :=
  if pred () then trueFn else falseFn

/-- `If` (conditionals.sqld.go). -/
def IfOp (pred : Unit → Bool) (op : SqldFn) : SqldFn := IfElse pred op NoOp

/-- `IfEmptyElse` (conditionals.sqld.go). -/
def IfEmptyElse (vals : GoSlice) (trueFn falseFn : SqldFn) : SqldFn :=
  IfElse (fun _ => (mapSlice vals).length == 0) trueFn falseFn

/-- `IfNotEmptyElse` (conditionals.sqld.go). -/
def IfNotEmptyElse (vals : GoSlice) (trueFn falseFn : SqldFn) : SqldFn :=
  IfElse (fun _ => (mapSlice vals).length != 0) trueFn falseFn

/-- `IfEmpty` (conditionals.sqld.go). -/
def IfEmpty (vals : GoSlice) (op : SqldFn) : SqldFn := IfEmptyElse vals op NoOp

/-- `IfNotEmpty` (conditionals.sqld.go). -/
def IfNotEmpty (vals : GoSlice) (op : SqldFn) : SqldFn := IfNotEmptyElse vals op NoOp

/-- `fmt.Sprintf("%d", _)` digit selection (strconv): the decimal digits. -/
def digitCharGo : Nat → Char
  | 0 => '0'
  | 1 => '1'
  | 2 => '2'
  | 3 => '3'
  | 4 => '4'
  | 5 => '5'
  | 6 => '6'
  | 7 => '7'
  | 8 => '8'
  | 9 => '9'
  | _ => '*'

/-- Decimal rendering of a natural number (fuelled division loop, enough fuel
to terminate for every input). -/
def natDigitsAux : Nat → Nat → GoStr
  | 0, _ => []
  | fuel + 1, n =>
    if n < 10 then [digitCharGo n]
    else natDigitsAux fuel (n / 10) ++ [digitCharGo (n % 10)]

/-- `fmt.Sprintf("%d", n)`. -/
def natToStr (n : Nat) : GoStr := natDigitsAux (n + 1) n

/-- `strings.Replace(s, "?", repl, 1)`: replace the first occurrence of the
placeholder character. -/
def replaceFirstQ (s : GoStr) (repl : GoStr) : GoStr :=
  match s with
  | [] => []
  | c :: rest => if c = '?' then repl ++ rest else c :: replaceFirstQ rest repl

/-- The `for i := 1; i <= len(args); i++` loop of `PgPrepare`
(postgres.sqld.go); the last argument counts the remaining iterations. -/
def pgPrepareLoop (query : GoStr) (i : Nat) : Nat → GoStr
  | 0 => query
  | k + 1 => pgPrepareLoop (replaceFirstQ query ('$' :: natToStr i)) (i + 1) k

/-- `PgPrepare` (postgres.sqld.go): swaps each `?` for `$1`, `$2`, ... -/
def PgPrepare (query : GoStr) (args : List Value) : GoStr :=
  pgPrepareLoop query 1 args.length

/-- Specification-side renumbering, written from the spec's words: the i-th
generic placeholder (left to right) becomes the 1-indexed positional
placeholder `$i`; all other text is kept unchanged. -/
def pgSpecNumber : GoStr → Nat → GoStr
  | [], _ => []
  | c :: rest, i =>
    if c = '?' then ('$' :: natToStr i) ++ pgSpecNumber rest (i + 1)
    else c :: pgSpecNumber rest i

namespace legacy

/-- `Eq` (legacy/operators.sqld.go): textually identical to the current one. -/
def EqOp (columnExpr : GoStr) (val : Option Value) : SqldFn :=
  match val with
  | none => ⟨[], [], some (.wrap (("eq (").toList ++ columnExpr ++ ("): ").toList) .errNilVal)⟩
  | some v => ⟨columnExpr ++ (" = ?").toList, [v], none⟩

/-- Loop of the legacy `boolCond` (legacy/operators.sqld.go): parameter
slices are flattened (`append(vals, fnVals...)`, guarded by a length check
that appending an empty slice skips). -/
def boolCondLoop (cond : GoStr) (sb : GoStr) (vals : List Value) (errs : Option GoErr)
    (atLeastOne : Bool) : List SqldFn → GoStr × List Value × Option GoErr × Bool
  | [] => (sb, vals, errs, atLeastOne)
  | fn :: rest =>
    let errs2 := errorsJoin errs fn.err
    if errs2.isSome || fn.frag.isEmpty then
      boolCondLoop cond sb vals errs2 atLeastOne rest
    else
      boolCondLoop cond (sb ++ (if atLeastOne then cond ++ [' '] else []) ++ fn.frag ++ ['\n'])
        (if fn.vals.isEmpty then vals else vals ++ fn.vals) errs2 true rest

/-- `boolCond` (legacy/operators.sqld.go): wraps the rendered group in
parentheses; if nothing rendered, returns empty with no error. -/
def boolCond (cond : GoStr) (ops : List SqldFn) : SqldFn :=
  if ops.isEmpty then ⟨[], [], some (.wrap (toLowerStr cond ++ (": ").toList) .errNoOps)⟩
  else
    match (boolCondLoop cond [] [] none false ops).2.2.1 with
    | some e => ⟨[], [], some (.wrap (cond ++ (": ").toList) e)⟩
    | none =>
      if (boolCondLoop cond [] [] none false ops).2.2.2 then
        ⟨['('] ++ (boolCondLoop cond [] [] none false ops).1 ++ [')'],
         (boolCondLoop cond [] [] none false ops).2.1, none⟩
      else ⟨[], [], none⟩

/-- `And` (legacy module). -/
def AndFn (ops : List SqldFn) : SqldFn := boolCond (("AND").toList) ops

/-- `Or` (legacy module). -/
def OrFn (ops : List SqldFn) : SqldFn := boolCond (("OR").toList) ops

/-- Loop of the legacy `Where`/`Having` (identical bodies): flattened
parameter lists, tab-indented fragments. -/
def whereLoop (sb : GoStr) (vals : List Value) (errs : Option GoErr) :
    List SqldFn → GoStr × List Value × Option GoErr
  | [] => (sb, vals, errs)
  | fn :: rest =>
    let errs2 := errorsJoin errs fn.err
    if errs2.isSome || fn.frag.isEmpty then whereLoop sb vals errs2 rest
    else whereLoop (sb ++ ['\t'] ++ fn.frag ++ ['\n'])
      (if fn.vals.isEmpty then vals else vals ++ fn.vals) errs2 rest

/-- `Where` (legacy/operators.sqld.go). -/
def Where (ops : List SqldFn) : SqldFn :=
  if ops.isEmpty then ⟨[], [], some (.wrap (("where: ").toList) .errNoOps)⟩
  else
    match (whereLoop [] [] none ops).2.2 with
    | some e => ⟨[], [], some (.wrap (("where:\n\t\t").toList) e)⟩
    | none =>
      if (whereLoop [] [] none ops).1.isEmpty then ⟨[], [], none⟩
      else ⟨("WHERE\n").toList ++ (whereLoop [] [] none ops).1,
        (whereLoop [] [] none ops).2.1, none⟩

/-- Loop of the legacy `GroupBy`/`OrderBy` (legacy/operators.sqld.go): a
comma separator precedes every rendered item except the first. -/
def groupByLoop (sb : GoStr) (vals : List Value) (errs : Option GoErr) (atLeastOne : Bool) :
    List SqldFn → GoStr × List Value × Option GoErr × Bool
  | [] => (sb, vals, errs, atLeastOne)
  | fn :: rest =>
    let errs2 := errorsJoin errs fn.err
    if errs2.isSome || fn.frag.isEmpty then groupByLoop sb vals errs2 atLeastOne rest
    else
      groupByLoop (sb ++ (if atLeastOne then (",\n\t").toList else []) ++ fn.frag)
        (if fn.vals.isEmpty then vals else vals ++ fn.vals) errs2 true rest

/-- `GroupBy` (legacy/operators.sqld.go). -/
def GroupBy (ops : List SqldFn) : SqldFn :=
  if ops.isEmpty then ⟨[], [], some (.wrap (("groupBy: ").toList) .errNoOps)⟩
  else
    match (groupByLoop [] [] none false ops).2.2.1 with
    | some e => ⟨[], [], some (.wrap (("groupBy:\n\t\t").toList) e)⟩
    | none =>
      if (groupByLoop [] [] none false ops).2.2.2 then
        ⟨("GROUP BY\n").toList ++ (groupByLoop [] [] none false ops).1,
         (groupByLoop [] [] none false ops).2.1, none⟩
      else ⟨[], [], none⟩

/-- Loop of `New` (the legacy root file): children are always rendered (even
empty fragments get their newline) unless an error has already occurred;
parameter lists are flattened. -/
def newLoop (sb : GoStr) (vals : List Value) (errs : Option GoErr) :
    List SqldFn → GoStr × List Value × Option GoErr
  | [] => (sb, vals, errs)
  | fn :: rest =>
    let errs2 := errorsJoin errs fn.err
    if errs2.isSome then newLoop sb vals errs2 rest
    else newLoop (sb ++ fn.frag ++ ['\n'])
      (if fn.vals.isEmpty then vals else vals ++ fn.vals) errs2 rest

/-- `New` (the legacy root file): top-level query assembly. -/
def New (ops : List SqldFn) : SqldFn :=
  if ops.isEmpty then ⟨[], [], some (.wrap (("query: ").toList) .errNoOps)⟩
  else
    match (newLoop [] [] none ops).2.2 with
    | some e => ⟨[], [], some (.wrap (("query:\n").toList) e)⟩
    | none => ⟨(newLoop [] [] none ops).1, (newLoop [] [] none ops).2.1, none⟩

end legacy

/-- Claim C1 (code bug witness): invoking `And(Eq("id", &42), In("pizzas",
["margherita","diavola"]))` does not return the flat, depth-first
concatenation of the leaves' parameter lists; each child's list is nested as
a single element (`append(vals, fnVals)` without `...`). -/
theorem c1_and_eq_in_nested_params :
    (AndFn [EqOp ("id").toList (some (Value.vint 42)),
        InOp ("pizzas").toList
          (some [Value.vstr ("margherita").toList, Value.vstr ("diavola").toList])]).vals
      = [Value.slice [Value.vint 42],
         Value.slice [Value.vstr ("margherita").toList, Value.vstr ("diavola").toList]] ∧
    (AndFn [EqOp ("id").toList (some (Value.vint 42)),
        InOp ("pizzas").toList
          (some [Value.vstr ("margherita").toList, Value.vstr ("diavola").toList])]).vals
      ≠ [Value.vint 42, Value.vstr ("margherita").toList, Value.vstr ("diavola").toList] := by
  constructor
  · rfl
  · intro h
    rw [show (AndFn [EqOp ("id").toList (some (Value.vint 42)),
        InOp ("pizzas").toList
          (some [Value.vstr ("margherita").toList, Value.vstr ("diavola").toList])]).vals
      = [Value.slice [Value.vint 42],
         Value.slice [Value.vstr ("margherita").toList, Value.vstr ("diavola").toList]]
      from rfl] at h
    exact absurd (congrArg List.length h) (by decide)

/-- Claim C2 (counterexample): the operator-taking `Select`, a combinator
that fans out to multiple children, returns only the first child's error when
two children fail: the second cause is absent from the composite. -/
theorem c2_select_drops_second_error :
    errAtomsOpt (Select [⟨[], [], some GoErr.errNilVal⟩,
        ⟨[], [], some GoErr.errNoColumns⟩]).err = [GoErr.errNilVal] ∧
    GoErr.errNoColumns ∉ errAtomsOpt (Select [⟨[], [], some GoErr.errNilVal⟩,
        ⟨[], [], some GoErr.errNoColumns⟩]).err := by
  exact ⟨rfl, by decide⟩

/-- Claim C3 (counterexample): `Where(And(Eq("id", &42)))` does not render
the fragment `"WHERE (\n\tid = ?\n)"` claimed by the spec (shown here on the
legacy module, whose `And` is the parenthesizing one). -/
theorem c3_fragment_counterexample :
    (legacy.Where [legacy.AndFn [legacy.EqOp ("id").toList (some (Value.vint 42))]]).frag
      ≠ ("WHERE (\n\tid = ?\n)").toList := by
  decide

/-- Claim C3 (amended): `Where(And(Eq("id", &42)))` on the legacy module
renders `"WHERE\n\t(id = ?\n)\n"` — keyword on its own line, the
parenthesized group tab-indented — with parameter list `[42]` and no error. -/
theorem c3_where_and_eq_rendering :
    (legacy.Where [legacy.AndFn [legacy.EqOp ("id").toList (some (Value.vint 42))]]).frag
      = ("WHERE\n\t(id = ?\n)\n").toList ∧
    (legacy.Where [legacy.AndFn [legacy.EqOp ("id").toList (some (Value.vint 42))]]).vals
      = [Value.vint 42] ∧
    (legacy.Where [legacy.AndFn [legacy.EqOp ("id").toList (some (Value.vint 42))]]).err
      = none :=
  ⟨rfl, rfl, rfl⟩

/-- Claim C5: every composite combinator — `And`, `Or`, `Where`, `Having`,
`OrderBy`, `GroupBy`, the operator-taking `Select`, and `New` — applied to
zero child operators returns an empty fragment and a `NoOperators`-class
error (the sentinel `ErrNoOps` is the sole cause of the returned error). -/
theorem c5_zero_ops_noops_error :
    ((AndFn []).frag = [] ∧ errAtomsOpt (AndFn []).err = [GoErr.errNoOps]) ∧
    ((OrFn []).frag = [] ∧ errAtomsOpt (OrFn []).err = [GoErr.errNoOps]) ∧
    ((Where []).frag = [] ∧ errAtomsOpt (Where []).err = [GoErr.errNoOps]) ∧
    ((Having []).frag = [] ∧ errAtomsOpt (Having []).err = [GoErr.errNoOps]) ∧
    ((OrderBy []).frag = [] ∧ errAtomsOpt (OrderBy []).err = [GoErr.errNoOps]) ∧
    ((legacy.GroupBy []).frag = [] ∧ errAtomsOpt (legacy.GroupBy []).err = [GoErr.errNoOps]) ∧
    ((Select []).frag = [] ∧ errAtomsOpt (Select []).err = [GoErr.errNoOps]) ∧
    ((legacy.New []).frag = [] ∧ errAtomsOpt (legacy.New []).err = [GoErr.errNoOps]) := by
  refine ⟨⟨rfl, rfl⟩, ⟨rfl, rfl⟩, ⟨rfl, rfl⟩, ⟨rfl, rfl⟩, ⟨rfl, rfl⟩, ⟨rfl, rfl⟩, ⟨rfl, rfl⟩,
    ⟨rfl, rfl⟩⟩

/-- Claim C8: `IfElse` selects (never invokes) one of the two operator
values according to the eagerly evaluated predicate; `If` is `IfElse` with
the no-op false branch, and the no-op yields an empty fragment, no
parameters and no error. -/
theorem c8_conditionals_branch_selection :
    ∀ (pred : Unit → Bool) (trueFn falseFn op : SqldFn),
      (pred () = true → IfElse pred trueFn falseFn = trueFn) ∧
      (pred () = false → IfElse pred trueFn falseFn = falseFn) ∧
      IfOp pred op = IfElse pred op NoOp ∧
      NoOp.frag = [] ∧ NoOp.vals = [] ∧ NoOp.err = none := by
  intro pred trueFn falseFn op
  refine ⟨fun h => ?_, fun h => ?_, rfl, rfl, rfl, rfl⟩
  · simp [IfElse, h]
  · simp [IfElse, h]

/-- Witness for C8 at a concrete predicate and operators. -/
theorem c8_conditionals_branch_selection_witness :
    IfElse (fun _ => true) (Just ("a").toList) NoOp = Just ("a").toList ∧
    IfElse (fun _ => false) (Just ("a").toList) NoOp = NoOp :=
  ⟨(c8_conditionals_branch_selection (fun _ => true) (Just ("a").toList) NoOp NoOp).1 rfl,
   (c8_conditionals_branch_selection (fun _ => false) (Just ("a").toList) NoOp
      NoOp).2.1 rfl⟩

/-- Claim C10: the emptiness conditionals treat the nil slice (`none`)
exactly like a zero-length slice: the not-empty forms select the no-op /
false branch, the empty forms select the operator / true branch. -/
theorem c10_nil_slice_conditionals :
    ∀ (op trueFn falseFn : SqldFn),
      IfNotEmpty none op = NoOp ∧ IfEmpty none op = op ∧
      IfNotEmptyElse none trueFn falseFn = falseFn ∧
      IfEmptyElse none trueFn falseFn = trueFn :=
  fun _ _ _ => ⟨rfl, rfl, rfl, rfl⟩

theorem errAtomsOpt_errorsJoin (a b : Option GoErr) :
    errAtomsOpt (errorsJoin a b) = errAtomsOpt a ++ errAtomsOpt b := by
  cases a <;> cases b <;> simp [errorsJoin, errAtomsOpt, errAtoms]

theorem errAtomsOpt_foldlJoin (ops : List SqldFn) :
    ∀ errs : Option GoErr,
      errAtomsOpt (ops.foldl (fun e fn => errorsJoin e fn.err) errs)
        = errAtomsOpt errs ++ (ops.map fun fn => errAtomsOpt fn.err).flatten := by
  induction ops with
  | nil => intro errs; simp
  | cons fn rest ih =>
    intro errs
    simp only [List.foldl_cons, List.map_cons, List.flatten_cons]
    rw [ih, errAtomsOpt_errorsJoin, List.append_assoc]

theorem boolCondLoop_errs (cond : GoStr) (ops : List SqldFn) :
    ∀ sb vals errs alo, (boolCondLoop cond sb vals errs alo ops).2.2
      = ops.foldl (fun e fn => errorsJoin e fn.err) errs := by
  induction ops with
  | nil => intro sb vals errs alo; rfl
  | cons fn rest ih =>
    intro sb vals errs alo
    simp only [boolCondLoop, List.foldl_cons]
    split
    · exact ih _ _ _ _
    · exact ih _ _ _ _

theorem whereLoop_errs (ops : List SqldFn) :
    ∀ sb vals errs, (whereLoop sb vals errs ops).2.2
      = ops.foldl (fun e fn => errorsJoin e fn.err) errs := by
  induction ops with
  | nil => intro sb vals errs; rfl
  | cons fn rest ih =>
    intro sb vals errs
    simp only [whereLoop, List.foldl_cons]
    split
    · exact ih _ _ _
    · exact ih _ _ _

theorem orderByLoop_errs (n : Nat) (ops : List SqldFn) :
    ∀ sb vals errs i, (orderByLoop n sb vals errs i ops).2.2
      = ops.foldl (fun e fn => errorsJoin e fn.err) errs := by
  induction ops with
  | nil => intro sb vals errs i; rfl
  | cons fn rest ih =>
    intro sb vals errs i
    simp only [orderByLoop, List.foldl_cons]
    split
    · exact ih _ _ _ _
    · exact ih _ _ _ _

theorem newLoop_errs (ops : List SqldFn) :
    ∀ sb vals errs, (legacy.newLoop sb vals errs ops).2.2
      = ops.foldl (fun e fn => errorsJoin e fn.err) errs := by
  induction ops with
  | nil => intro sb vals errs; rfl
  | cons fn rest ih =>
    intro sb vals errs
    simp only [legacy.newLoop, List.foldl_cons]
    split
    · exact ih _ _ _
    · exact ih _ _ _

theorem boolCond_err_atoms (cond : GoStr) (ops : List SqldFn) (h : ops ≠ []) :
    errAtomsOpt (boolCond cond ops).err = (ops.map fun fn => errAtomsOpt fn.err).flatten := by
  obtain ⟨fn, rest, rfl⟩ := List.exists_cons_of_ne_nil h
  have he := boolCondLoop_errs cond (fn :: rest) [] [] none false
  have hfold := errAtomsOpt_foldlJoin (fn :: rest) none
  rw [← he] at hfold
  simp only [errAtomsOpt, List.nil_append] at hfold
  unfold boolCond
  simp only [List.isEmpty_cons, Bool.false_eq_true, if_false]
  cases h2 : (boolCondLoop cond [] [] none false (fn :: rest)).2.2 with
  | none =>
    rw [h2] at hfold
    exact hfold
  | some e =>
    rw [h2] at hfold
    exact hfold

theorem where_err_atoms (ops : List SqldFn) (h : ops ≠ []) :
    errAtomsOpt (Where ops).err = (ops.map fun fn => errAtomsOpt fn.err).flatten := by
  obtain ⟨fn, rest, rfl⟩ := List.exists_cons_of_ne_nil h
  have he := whereLoop_errs (fn :: rest) [] [] none
  have hfold := errAtomsOpt_foldlJoin (fn :: rest) none
  rw [← he] at hfold
  simp only [errAtomsOpt, List.nil_append] at hfold
  unfold Where
  simp only [List.isEmpty_cons, Bool.false_eq_true, if_false]
  split
  next e heq =>
    rw [heq] at hfold
    exact hfold
  next heq =>
    rw [heq] at hfold
    split
    · exact hfold
    · exact hfold

theorem having_err_atoms (ops : List SqldFn) (h : ops ≠ []) :
    errAtomsOpt (Having ops).err = (ops.map fun fn => errAtomsOpt fn.err).flatten := by
  obtain ⟨fn, rest, rfl⟩ := List.exists_cons_of_ne_nil h
  have he := whereLoop_errs (fn :: rest) [] [] none
  have hfold := errAtomsOpt_foldlJoin (fn :: rest) none
  rw [← he] at hfold
  simp only [errAtomsOpt, List.nil_append] at hfold
  unfold Having
  simp only [List.isEmpty_cons, Bool.false_eq_true, if_false]
  split
  next e heq =>
    rw [heq] at hfold
    exact hfold
  next heq =>
    rw [heq] at hfold
    split
    · exact hfold
    · exact hfold

theorem orderBy_err_atoms (ops : List SqldFn) (h : ops ≠ []) :
    errAtomsOpt (OrderBy ops).err = (ops.map fun fn => errAtomsOpt fn.err).flatten := by
  obtain ⟨fn, rest, rfl⟩ := List.exists_cons_of_ne_nil h
  have he := orderByLoop_errs (fn :: rest).length (fn :: rest) [] [] none 0
  have hfold := errAtomsOpt_foldlJoin (fn :: rest) none
  rw [← he] at hfold
  simp only [errAtomsOpt, List.nil_append] at hfold
  unfold OrderBy
  simp only [List.isEmpty_cons, Bool.false_eq_true, if_false]
  split
  next e heq =>
    rw [heq] at hfold
    exact hfold
  next heq =>
    rw [heq] at hfold
    split
    · exact hfold
    · exact hfold

theorem new_err_atoms (ops : List SqldFn) (h : ops ≠ []) :
    errAtomsOpt (legacy.New ops).err = (ops.map fun fn => errAtomsOpt fn.err).flatten := by
  obtain ⟨fn, rest, rfl⟩ := List.exists_cons_of_ne_nil h
  have he := newLoop_errs (fn :: rest) [] [] none
  have hfold := errAtomsOpt_foldlJoin (fn :: rest) none
  rw [← he] at hfold
  simp only [errAtomsOpt, List.nil_append] at hfold
  unfold legacy.New
  simp only [List.isEmpty_cons, Bool.false_eq_true, if_false]
  cases h2 : (legacy.newLoop [] [] none (fn :: rest)).2.2 with
  | none =>
    rw [h2] at hfold
    exact hfold
  | some e =>
    rw [h2] at hfold
    exact hfold

theorem selectLoop_first_error (pre : List SqldFn) :
    ∀ columns vals, (∀ p ∈ pre, p.err = none) → ∀ (op : SqldFn) (e : GoErr), op.err = some e →
      ∀ post, selectLoop columns vals (pre ++ op :: post)
        = ([], [], some (.wrap (("select: ").toList) e)) := by
  induction pre with
  | nil =>
    intro columns vals _ op e hop post
    simp only [List.nil_append, selectLoop, hop]
  | cons p rest ih =>
    intro columns vals hpre op e hop post
    have hp : p.err = none := hpre p (List.mem_cons_self _ _)
    simp only [List.cons_append, selectLoop, hp]
    exact ih _ _ (fun q hq => hpre q (List.mem_cons_of_mem _ hq)) op e hop post

/-- Claim C2 (amended): of the fan-out combinators, `And`/`Or` (via
`boolCond`), `Where`, `Having`, `OrderBy` and `New` invoke every child and
return a single composite error whose causes are exactly the concatenation
of all children's error causes in order; the operator-taking `Select` is the
exception: it stops at the first failing child and returns only that child's
error, wrapped. -/
theorem c2_error_aggregation :
    (∀ (cond : GoStr) (ops : List SqldFn), ops ≠ [] →
        errAtomsOpt (boolCond cond ops).err = (ops.map fun fn => errAtomsOpt fn.err).flatten) ∧
    (∀ ops : List SqldFn, ops ≠ [] →
        errAtomsOpt (Where ops).err = (ops.map fun fn => errAtomsOpt fn.err).flatten) ∧
    (∀ ops : List SqldFn, ops ≠ [] →
        errAtomsOpt (Having ops).err = (ops.map fun fn => errAtomsOpt fn.err).flatten) ∧
    (∀ ops : List SqldFn, ops ≠ [] →
        errAtomsOpt (OrderBy ops).err = (ops.map fun fn => errAtomsOpt fn.err).flatten) ∧
    (∀ ops : List SqldFn, ops ≠ [] →
        errAtomsOpt (legacy.New ops).err = (ops.map fun fn => errAtomsOpt fn.err).flatten) ∧
    (∀ (pre post : List SqldFn) (op : SqldFn) (e : GoErr),
        (∀ p ∈ pre, p.err = none) → op.err = some e →
        (Select (pre ++ op :: post)).err = some (.wrap (("select: ").toList) e)) := by
  refine ⟨boolCond_err_atoms, where_err_atoms, having_err_atoms, orderBy_err_atoms,
    new_err_atoms, ?_⟩
  intro pre post op e hpre hop
  have hne : pre ++ op :: post ≠ [] := by
    intro hcontra
    exact absurd (List.append_eq_nil.mp hcontra).2 (List.cons_ne_nil _ _)
  have hl := selectLoop_first_error pre [] [] hpre op e hop post
  unfold Select
  obtain ⟨fn, rest, hcons⟩ := List.exists_cons_of_ne_nil hne
  rw [hcons]
  simp only [List.isEmpty_cons, Bool.false_eq_true, if_false]
  rw [← hcons, hl]

/-- Witness for C2 at concrete children: two failing children for each
aggregating combinator, and `Select` with a healthy first child followed by
a failing one. -/
theorem c2_error_aggregation_witness :
    (errAtomsOpt (boolCond (("AND").toList)
        [⟨[], [], some GoErr.errNilVal⟩, ⟨[], [], some GoErr.errNoColumns⟩]).err
      = ([⟨[], [], some GoErr.errNilVal⟩, ⟨[], [], some GoErr.errNoColumns⟩].map
          fun fn => errAtomsOpt (RenderRes.err fn)).flatten) ∧
    (errAtomsOpt (Where
        [⟨[], [], some GoErr.errNilVal⟩, ⟨[], [], some GoErr.errNoColumns⟩]).err
      = ([⟨[], [], some GoErr.errNilVal⟩, ⟨[], [], some GoErr.errNoColumns⟩].map
          fun fn => errAtomsOpt (RenderRes.err fn)).flatten) ∧
    (errAtomsOpt (Having
        [⟨[], [], some GoErr.errNilVal⟩, ⟨[], [], some GoErr.errNoColumns⟩]).err
      = ([⟨[], [], some GoErr.errNilVal⟩, ⟨[], [], some GoErr.errNoColumns⟩].map
          fun fn => errAtomsOpt (RenderRes.err fn)).flatten) ∧
    (errAtomsOpt (OrderBy
        [⟨[], [], some GoErr.errNilVal⟩, ⟨[], [], some GoErr.errNoColumns⟩]).err
      = ([⟨[], [], some GoErr.errNilVal⟩, ⟨[], [], some GoErr.errNoColumns⟩].map
          fun fn => errAtomsOpt (RenderRes.err fn)).flatten) ∧
    (errAtomsOpt (legacy.New
        [⟨[], [], some GoErr.errNilVal⟩, ⟨[], [], some GoErr.errNoColumns⟩]).err
      = ([⟨[], [], some GoErr.errNilVal⟩, ⟨[], [], some GoErr.errNoColumns⟩].map
          fun fn => errAtomsOpt (RenderRes.err fn)).flatten) ∧
    (Select [Just (("a").toList), ⟨[], [], some GoErr.errNilVal⟩]).err
      = some (.wrap (("select: ").toList) GoErr.errNilVal) := by
  refine ⟨c2_error_aggregation.1 _ _ (List.cons_ne_nil _ _),
    c2_error_aggregation.2.1 _ (List.cons_ne_nil _ _),
    c2_error_aggregation.2.2.1 _ (List.cons_ne_nil _ _),
    c2_error_aggregation.2.2.2.1 _ (List.cons_ne_nil _ _),
    c2_error_aggregation.2.2.2.2.1 _ (List.cons_ne_nil _ _),
    c2_error_aggregation.2.2.2.2.2 [Just (("a").toList)] [] _ GoErr.errNilVal ?_ rfl⟩
  intro p hp
  rw [List.mem_singleton] at hp
  subst hp
  rfl

theorem boolCondLoop_all_empty (cond : GoStr) : ∀ ops : List SqldFn,
    (∀ op ∈ ops, op.frag = [] ∧ op.err = none) →
    ∀ sb vals alo, boolCondLoop cond sb vals none alo ops = (sb, vals, none) := by
  intro ops
  induction ops with
  | nil => intro _ sb vals alo; rfl
  | cons fn rest ih =>
    intro h sb vals alo
    have hf := h fn (List.mem_cons_self _ _)
    simp only [boolCondLoop, hf.1, hf.2]
    exact ih (fun op hop => h op (List.mem_cons_of_mem _ hop)) sb vals alo

theorem whereLoop_all_empty : ∀ ops : List SqldFn,
    (∀ op ∈ ops, op.frag = [] ∧ op.err = none) →
    ∀ sb vals, whereLoop sb vals none ops = (sb, vals, none) := by
  intro ops
  induction ops with
  | nil => intro _ sb vals; rfl
  | cons fn rest ih =>
    intro h sb vals
    have hf := h fn (List.mem_cons_self _ _)
    simp only [whereLoop, hf.1, hf.2]
    exact ih (fun op hop => h op (List.mem_cons_of_mem _ hop)) sb vals

theorem orderByLoop_all_empty (n : Nat) : ∀ ops : List SqldFn,
    (∀ op ∈ ops, op.frag = [] ∧ op.err = none) →
    ∀ sb vals i, orderByLoop n sb vals none i ops = (sb, vals, none) := by
  intro ops
  induction ops with
  | nil => intro _ sb vals i; rfl
  | cons fn rest ih =>
    intro h sb vals i
    have hf := h fn (List.mem_cons_self _ _)
    simp only [orderByLoop, hf.1, hf.2]
    exact ih (fun op hop => h op (List.mem_cons_of_mem _ hop)) sb vals (i + 1)

theorem legacyBoolCondLoop_all_empty (cond : GoStr) : ∀ ops : List SqldFn,
    (∀ op ∈ ops, op.frag = [] ∧ op.err = none) →
    ∀ sb vals alo, legacy.boolCondLoop cond sb vals none alo ops = (sb, vals, none, alo) := by
  intro ops
  induction ops with
  | nil => intro _ sb vals alo; rfl
  | cons fn rest ih =>
    intro h sb vals alo
    have hf := h fn (List.mem_cons_self _ _)
    simp only [legacy.boolCondLoop, hf.1, hf.2]
    exact ih (fun op hop => h op (List.mem_cons_of_mem _ hop)) sb vals alo

theorem legacyWhereLoop_all_empty : ∀ ops : List SqldFn,
    (∀ op ∈ ops, op.frag = [] ∧ op.err = none) →
    ∀ sb vals, legacy.whereLoop sb vals none ops = (sb, vals, none) := by
  intro ops
  induction ops with
  | nil => intro _ sb vals; rfl
  | cons fn rest ih =>
    intro h sb vals
    have hf := h fn (List.mem_cons_self _ _)
    simp only [legacy.whereLoop, hf.1, hf.2]
    exact ih (fun op hop => h op (List.mem_cons_of_mem _ hop)) sb vals

theorem legacyGroupByLoop_all_empty : ∀ ops : List SqldFn,
    (∀ op ∈ ops, op.frag = [] ∧ op.err = none) →
    ∀ sb vals alo, legacy.groupByLoop sb vals none alo ops = (sb, vals, none, alo) := by
  intro ops
  induction ops with
  | nil => intro _ sb vals alo; rfl
  | cons fn rest ih =>
    intro h sb vals alo
    have hf := h fn (List.mem_cons_self _ _)
    simp only [legacy.groupByLoop, hf.1, hf.2]
    exact ih (fun op hop => h op (List.mem_cons_of_mem _ hop)) sb vals alo

/-- Claim C4: every boolean combinator (`And`/`Or`, in both generations) and
every section combinator (`Where`, `Having`, `OrderBy`, `GroupBy`) given at
least one child, all of whose children render an empty fragment with no
error, returns an empty fragment, an empty parameter list and no error. -/
theorem c4_all_empty_children :
    ∀ ops : List SqldFn, ops ≠ [] → (∀ op ∈ ops, op.frag = [] ∧ op.err = none) →
      (∀ cond, boolCond cond ops = ⟨[], [], none⟩) ∧
      AndFn ops = ⟨[], [], none⟩ ∧ OrFn ops = ⟨[], [], none⟩ ∧
      Where ops = ⟨[], [], none⟩ ∧ Having ops = ⟨[], [], none⟩ ∧
      OrderBy ops = ⟨[], [], none⟩ ∧
      (∀ cond, legacy.boolCond cond ops = ⟨[], [], none⟩) ∧
      legacy.AndFn ops = ⟨[], [], none⟩ ∧ legacy.OrFn ops = ⟨[], [], none⟩ ∧
      legacy.Where ops = ⟨[], [], none⟩ ∧ legacy.GroupBy ops = ⟨[], [], none⟩ := by
  intro ops hne h
  obtain ⟨fn, rest, rfl⟩ := List.exists_cons_of_ne_nil hne
  have hbc : ∀ cond, boolCond cond (fn :: rest) = ⟨[], [], none⟩ := by
    intro cond
    unfold boolCond
    rw [boolCondLoop_all_empty cond (fn :: rest) h [] [] false]
    rfl
  have hwh : Where (fn :: rest) = ⟨[], [], none⟩ := by
    unfold Where
    rw [whereLoop_all_empty (fn :: rest) h [] []]
    rfl
  have hhv : Having (fn :: rest) = ⟨[], [], none⟩ := by
    unfold Having
    rw [whereLoop_all_empty (fn :: rest) h [] []]
    rfl
  have hob : OrderBy (fn :: rest) = ⟨[], [], none⟩ := by
    unfold OrderBy
    rw [orderByLoop_all_empty (fn :: rest).length (fn :: rest) h [] [] 0]
    rfl
  have hlbc : ∀ cond, legacy.boolCond cond (fn :: rest) = ⟨[], [], none⟩ := by
    intro cond
    unfold legacy.boolCond
    rw [legacyBoolCondLoop_all_empty cond (fn :: rest) h [] [] false]
    rfl
  have hlwh : legacy.Where (fn :: rest) = ⟨[], [], none⟩ := by
    unfold legacy.Where
    rw [legacyWhereLoop_all_empty (fn :: rest) h [] []]
    rfl
  have hlgb : legacy.GroupBy (fn :: rest) = ⟨[], [], none⟩ := by
    unfold legacy.GroupBy
    rw [legacyGroupByLoop_all_empty (fn :: rest) h [] [] false]
    rfl
  exact ⟨hbc, hbc _, hbc _, hwh, hhv, hob, hlbc, hlbc _, hlbc _, hlwh, hlgb⟩

/-- Witness for C4: a single no-op child. -/
theorem c4_all_empty_children_witness :
    AndFn [NoOp] = ⟨[], [], none⟩ ∧ OrFn [NoOp] = ⟨[], [], none⟩ ∧
    Where [NoOp] = ⟨[], [], none⟩ ∧ Having [NoOp] = ⟨[], [], none⟩ ∧
    OrderBy [NoOp] = ⟨[], [], none⟩ ∧ legacy.Where [NoOp] = ⟨[], [], none⟩ ∧
    legacy.GroupBy [NoOp] = ⟨[], [], none⟩ :=
  have hc := c4_all_empty_children [NoOp] (List.cons_ne_nil _ _)
    (fun op hop => by rw [List.mem_singleton] at hop; subst hop; exact ⟨rfl, rfl⟩)
  ⟨hc.2.1, hc.2.2.1, hc.2.2.2.1, hc.2.2.2.2.1, hc.2.2.2.2.2.1,
    hc.2.2.2.2.2.2.2.2.2.1, hc.2.2.2.2.2.2.2.2.2.2⟩

theorem foldl_append_id : ∀ (l acc : List Value),
    l.foldl (fun a v => a ++ [v]) acc = acc ++ l := by
  intro l
  induction l with
  | nil => intro acc; simp
  | cons v vs ih =>
    intro acc
    simp only [List.foldl_cons]
    rw [ih, List.append_assoc]
    rfl

theorem mapSlice_some (l : List Value) : mapSlice (some l) = l := by
  simp [mapSlice, sliceElems, foldl_append_id]

theorem countQ_stringsRepeat : ∀ n : Nat,
    ((stringsRepeat ((", ?").toList) n).count '?') = n := by
  intro n
  induction n with
  | zero => rfl
  | succ k ih =>
    rw [show stringsRepeat ((", ?").toList) (k + 1)
        = (", ?").toList ++ stringsRepeat ((", ?").toList) k from by
      simp [stringsRepeat, List.replicate_succ]]
    rw [List.count_append, ih]
    exact Nat.add_comm 1 k

/-- Claim C6: for a non-empty value slice of length N (and a column name
free of the placeholder character), `In` renders exactly N placeholders and
collects exactly the N values, in order, with no error; the second-generation
`In` coincides with it on non-empty input. -/
theorem c6_in_placeholders :
    ∀ (columnExpr : GoStr) (l : List Value), l ≠ [] → '?' ∉ columnExpr →
      ((InOp columnExpr (some l)).frag.count '?' = l.length ∧
       (InOp columnExpr (some l)).vals = l ∧
       (InOp columnExpr (some l)).err = none) ∧
      InOpV2 columnExpr (some l) = InOp columnExpr (some l) := by
  intro col l hne hq
  have hlen : ¬ gLen (some l) = 0 := by
    simp only [gLen, sliceElems]
    intro hc
    exact hne (List.eq_nil_of_length_eq_zero hc)
  unfold InOp InOpV2
  rw [if_neg hlen, if_neg hlen]
  refine ⟨⟨?_, mapSlice_some l, rfl⟩, rfl⟩
  cases l with
  | nil => exact absurd rfl hne
  | cons v vs =>
    simp only [List.count_append]
    rw [List.count_eq_zero.mpr hq]
    rw [show stringsRepeat ((", ?").toList) (gLen (some (v :: vs)))
        = (", ?").toList ++ stringsRepeat ((", ?").toList) vs.length from by
      simp [stringsRepeat, gLen, sliceElems, List.replicate_succ]]
    rw [show ((", ?").toList ++ stringsRepeat ((", ?").toList) vs.length).drop 1
        = ' ' :: '?' :: stringsRepeat ((", ?").toList) vs.length from rfl]
    simp only [List.count_cons]
    simp
    exact countQ_stringsRepeat vs.length

/-- Witness for C6: `In("pizzas", [1, 2])`. -/
theorem c6_in_placeholders_witness :
    ((InOp (("pizzas").toList) (some [Value.vnat 1, Value.vnat 2])).frag.count '?'
        = ([Value.vnat 1, Value.vnat 2] : List Value).length ∧
     (InOp (("pizzas").toList) (some [Value.vnat 1, Value.vnat 2])).vals
        = [Value.vnat 1, Value.vnat 2] ∧
     (InOp (("pizzas").toList) (some [Value.vnat 1, Value.vnat 2])).err = none) ∧
    InOpV2 (("pizzas").toList) (some [Value.vnat 1, Value.vnat 2])
      = InOp (("pizzas").toList) (some [Value.vnat 1, Value.vnat 2]) :=
  c6_in_placeholders (("pizzas").toList) [Value.vnat 1, Value.vnat 2]
    (List.cons_ne_nil _ _) (by decide)

theorem digitCharGo_ne_q : ∀ n : Nat, digitCharGo n ≠ '?' := by
  intro n
  unfold digitCharGo
  split <;> decide

theorem natDigitsAux_no_q : ∀ (fuel n : Nat), '?' ∉ natDigitsAux fuel n := by
  intro fuel
  induction fuel with
  | zero => intro n; simp [natDigitsAux]
  | succ k ih =>
    intro n
    unfold natDigitsAux
    split
    · intro hmem
      exact digitCharGo_ne_q n (List.mem_singleton.mp hmem).symm
    · intro hmem
      rcases List.mem_append.mp hmem with h1 | h2
      · exact ih (n / 10) h1
      · exact digitCharGo_ne_q (n % 10) (List.mem_singleton.mp h2).symm

theorem natToStr_no_q (n : Nat) : '?' ∉ natToStr n := natDigitsAux_no_q (n + 1) n

theorem dollar_no_q (i : Nat) : '?' ∉ '$' :: natToStr i := by
  intro h
  rcases List.mem_cons.mp h with h1 | h2
  · exact absurd h1 (by decide)
  · exact natToStr_no_q i h2

theorem replaceFirstQ_append (d : GoStr) (hd : '?' ∉ d) :
    ∀ (x r : GoStr), replaceFirstQ (d ++ x) r = d ++ replaceFirstQ x r := by
  induction d with
  | nil => intro x r; rfl
  | cons c cs ih =>
    intro x r
    have hc : ¬ c = '?' := fun hcc => hd (hcc ▸ List.mem_cons_self c cs)
    simp only [List.cons_append, replaceFirstQ, if_neg hc]
    exact congrArg (fun t => c :: t) (ih (fun hmem => hd (List.mem_cons_of_mem c hmem)) x r)

theorem pgPrepareLoop_append (d : GoStr) (hd : '?' ∉ d) :
    ∀ (k i : Nat) (x : GoStr), pgPrepareLoop (d ++ x) i k = d ++ pgPrepareLoop x i k := by
  intro k
  induction k with
  | zero => intro i x; rfl
  | succ m ih =>
    intro i x
    simp only [pgPrepareLoop]
    rw [replaceFirstQ_append d hd]
    exact ih (i + 1) _

theorem pgLoop_spec : ∀ (q : GoStr) (i : Nat),
    pgPrepareLoop q i (List.count '?' q) = pgSpecNumber q i := by
  intro q
  induction q with
  | nil => intro i; rfl
  | cons c rest ih =>
    intro i
    by_cases hc : c = '?'
    · subst hc
      rw [show List.count '?' ('?' :: rest) = List.count '?' rest + 1 from by
        simp [List.count_cons]]
      simp only [pgPrepareLoop]
      rw [show replaceFirstQ ('?' :: rest) ('$' :: natToStr i) = ('$' :: natToStr i) ++ rest from by
        simp [replaceFirstQ]]
      rw [pgPrepareLoop_append _ (dollar_no_q i)]
      rw [ih (i + 1)]
      simp [pgSpecNumber]
    · rw [show List.count '?' (c :: rest) = List.count '?' rest from by
        simp [List.count_cons, hc]]
      rw [show (c :: rest : GoStr) = [c] ++ rest from rfl]
      rw [pgPrepareLoop_append [c] (fun hmem => hc (List.mem_singleton.mp hmem).symm)]
      rw [ih i]
      simp [pgSpecNumber, hc]

/-- Claim C7: on a query holding exactly as many generic placeholders as
there are arguments, `PgPrepare` replaces the i-th `?`, left to right, by the
1-indexed positional placeholder `$i`, leaving all other text unchanged
(stated as agreement with the specification-side renumbering function). -/
theorem c7_pg_prepare_numbering :
    ∀ (query : GoStr) (args : List Value), List.count '?' query = args.length →
      PgPrepare query args = pgSpecNumber query 1 := by
  intro q args h
  unfold PgPrepare
  rw [← h]
  exact pgLoop_spec q 1

/-- Witness for C7: two placeholders, two arguments. -/
theorem c7_pg_prepare_numbering_witness :
    List.count '?' (("a = ? AND b = ?").toList)
        = ([Value.vnat 1, Value.vnat 2] : List Value).length ∧
    PgPrepare (("a = ? AND b = ?").toList) [Value.vnat 1, Value.vnat 2]
        = pgSpecNumber (("a = ? AND b = ?").toList) 1 ∧
    pgSpecNumber (("a = ? AND b = ?").toList) 1 = ("a = $1 AND b = $2").toList :=
  ⟨by decide, c7_pg_prepare_numbering (("a = ? AND b = ?").toList) [Value.vnat 1, Value.vnat 2]
      (by decide), by decide⟩

theorem selectLoop_no_err : ∀ ops : List SqldFn, (∀ op ∈ ops, op.err = none) →
    ∀ columns vals, selectLoop columns vals ops
      = (columns ++ (ops.map fun op => (",\n\t").toList ++ op.frag).flatten,
         vals ++ ops.map (fun op => Value.slice op.vals), none) := by
  intro ops
  induction ops with
  | nil => intro _ columns vals; simp [selectLoop]
  | cons op rest ih =>
    intro h columns vals
    have hop : op.err = none := h op (List.mem_cons_self _ _)
    simp only [selectLoop, hop]
    rw [ih (fun q hq => h q (List.mem_cons_of_mem _ hq))]
    simp [List.append_assoc]

/-- Claim C9: the multi-operator `Select` over children that all succeed
renders `"SELECT\n\t"` followed, for every child in order including the
first, by the separator `",\n\t"` and that child's fragment — the leading
comma is real and empty child fragments are not filtered out. -/
theorem c9_select_leading_separator :
    ∀ ops : List SqldFn, ops ≠ [] → (∀ op ∈ ops, op.err = none) →
      (Select ops).frag
        = ("SELECT\n\t").toList ++ (ops.map fun op => (",\n\t").toList ++ op.frag).flatten ∧
      (Select ops).err = none := by
  intro ops hne h
  obtain ⟨fn, rest, rfl⟩ := List.exists_cons_of_ne_nil hne
  unfold Select
  rw [selectLoop_no_err (fn :: rest) h [] []]
  exact ⟨rfl, rfl⟩

/-- Witness for C9: two literal columns. -/
theorem c9_select_leading_separator_witness :
    (Select [Just (("name").toList), Just (("pizzas").toList)]).frag
      = ("SELECT\n\t").toList ++ ([Just (("name").toList), Just (("pizzas").toList)].map
          fun op => (",\n\t").toList ++ RenderRes.frag op).flatten ∧
    (Select [Just (("name").toList), Just (("pizzas").toList)]).err = none :=
  c9_select_leading_separator [Just (("name").toList), Just (("pizzas").toList)]
    (List.cons_ne_nil _ _) (fun op hop => by
      rcases List.mem_cons.mp hop with h1 | h2
      · subst h1; rfl
      · rw [List.mem_singleton] at h2; subst h2; rfl)
